import Mathlib

/-!
Formal model of the `ace_it` attribute transformation (src/lib.rs).

The transformation receives a parsed enum declaration (`syn::ItemEnum`),
checks for duplicate payload type token strings among variants with an
unnamed field list, and either returns a single compile error or the
original declaration followed by one generated `From` impl per variant
with an unnamed field list.

Token streams are modelled as lists of token strings.  Type expressions
are opaque token strings, compared literally, exactly as the source
compares `fields.unnamed.to_token_stream().to_string()`.
-/

set_option autoImplicit false

namespace AceIt

/-- Source span of a variant, as an abstract location identifier
(`variant.span()` in the source). -/
abbrev Span := Nat

/-- Payload shape of an enum variant, mirroring `syn::Fields`:
a unit variant, an unnamed (tuple-style) field list carrying the token
strings of its field types, or a named field list. -/
inductive Fields where
  | Unit : Fields
  | Unnamed (tys : List String) : Fields
  | Named (fs : List (String × String)) : Fields
deriving DecidableEq, Repr

/-- One enum variant: identifier, payload shape and source span,
mirroring `syn::Variant`. -/
structure Variant where
  ident : String
  fields : Fields
  span : Span
deriving DecidableEq, Repr

/-- A parsed enum declaration, mirroring the parts of `syn::ItemEnum`
used by the transformation: attributes, visibility, name, generic
parameter tokens and the ordered variant list. -/
structure ItemEnum where
  attrs : List String
  vis : List String
  ident : String
  generics : List String
  variants : List Variant
deriving DecidableEq, Repr

/-- Comma-separated rendering of a token list, as `proc_macro2` renders a
`Punctuated<Field, Comma>` sequence inside a token stream. -/
def sepByComma : List String → List String
  | [] => []
  | [t] => [t]
  | t :: u :: rest => t :: "," :: sepByComma (u :: rest)

/-- The string key used by the duplicate scan for an unnamed field list:
`fields.unnamed.to_token_stream().to_string()` in the source. -/
def fieldsKey (tys : List String) : String :=
  String.intercalate " , " tys

/-- Token stream of one generated impl, mirroring the `quote!` template in
`process_variants`:
`impl From<#types> for #enum_name { fn from(value: #types) -> Self { Self::#variant_name(value) } }`. -/
def mkFromImpl (enum_name variant_name : String) (types : List String) : List String :=
  ["impl", "From", "<"] ++ sepByComma types ++
    [">", "for", enum_name, "\x7b", "fn", "from", "(", "value", ":"] ++ sepByComma types ++
    [")", "->", "Self", "\x7b", "Self", "::", variant_name, "(", "value", ")", "\x7d", "\x7d"]

/-- Loop body of `process_variants`: walks the variants in order, pushing a
generated impl for every variant whose fields are `Fields::Unnamed`. -/
def processVariantsGo (enum_name : String) (from_impls : List (List String)) :
    List Variant → List (List String)
  | [] => from_impls
  | v :: rest =>
    match v.fields with
    | Fields.Unnamed tys =>
        processVariantsGo enum_name (from_impls ++ [mkFromImpl enum_name v.ident tys]) rest
    | Fields.Unit => processVariantsGo enum_name from_impls rest
    | Fields.Named _ => processVariantsGo enum_name from_impls rest

/-- Model of `process_variants` in src/lib.rs: generates the ordered list
of `From` impl token streams for the given variants. -/
def process_variants (variants : List Variant) (enum_name : String) : List (List String) :=
  processVariantsGo enum_name [] variants

/-- Loop of `find_duplicate_variant_type`: `types_map` is the set of keys
inserted so far (the source uses a `HashSet<String>`; membership is all
that is observed, so a list of inserted keys is a faithful model). -/
def findDupGo (types_map : List String) : List Variant → Option Span
  | [] => none
  | v :: rest =>
    match v.fields with
    | Fields.Unnamed tys =>
        if fieldsKey tys ∈ types_map then some v.span
        else findDupGo (fieldsKey tys :: types_map) rest
    | Fields.Unit => findDupGo types_map rest
    | Fields.Named _ => findDupGo types_map rest

/-- Model of `find_duplicate_variant_type` in src/lib.rs: returns the span
of the first variant whose unnamed field list token string was already
inserted, or none. -/
def find_duplicate_variant_type (variants : List Variant) : Option Span :=
  findDupGo [] variants

/-- Token rendering of a payload shape inside the declaration. -/
def fieldsTokens : Fields → List String
  | Fields.Unit => []
  | Fields.Unnamed tys => ["("] ++ sepByComma tys ++ [")"]
  | Fields.Named fs =>
      ["\x7b"] ++ sepByComma (fs.map (fun p => p.1 ++ " : " ++ p.2)) ++ ["\x7d"]

/-- Token rendering of a comma-separated variant list. -/
def variantsTokens : List Variant → List String
  | [] => []
  | [v] => v.ident :: fieldsTokens v.fields
  | v :: u :: rest => (v.ident :: fieldsTokens v.fields) ++ "," :: variantsTokens (u :: rest)

/-- Model of `parsed.to_token_stream()` for the enum declaration: the
original declaration rendered verbatim, attributes, visibility, name,
generics and variants in declaration order. -/
def ItemEnum.toTokenStream (e : ItemEnum) : List String :=
  e.attrs ++ e.vis ++ ["enum", e.ident] ++ e.generics ++
    ["\x7b"] ++ variantsTokens e.variants ++ ["\x7d"]

/-- Message of the duplicate diagnostic, verbatim from src/lib.rs. -/
def dupMsg : String := "Duplicate variant type, can\x27t auto-generate From impls"

/-- A compile error artifact: `syn::Error::new(span, msg).to_compile_error()`. -/
structure CompileError where
  span : Span
  msg : String
deriving DecidableEq, Repr

/-- Result of the transformation: either a single compile error token
stream or an ordinary token stream. -/
inductive Output where
  | err (e : CompileError) : Output
  | ok (ts : List String) : Output
deriving DecidableEq, Repr

/-- Model of `ace_it_impl` in src/lib.rs: run the duplicate scan; on a hit
return only the compile error; otherwise return the declaration's token
stream with every generated impl appended in order. -/
def ace_it_impl (parsed : ItemEnum) : Output :=
  match find_duplicate_variant_type parsed.variants with
  | some var => Output.err ⟨var, dupMsg⟩
  | none =>
      Output.ok (parsed.toTokenStream ++ (process_variants parsed.variants parsed.ident).flatten)

/-- Predicate from the spec's words: a variant with exactly one unnamed
payload (the qualifying shape for generated conversions). -/
def isSingleUnnamed (v : Variant) : Bool :=
  match v.fields with
  | Fields.Unnamed tys => tys.length == 1
  | _ => false

/-- The per-variant generation step as an optional value: `some` impl for
an unnamed field list, `none` otherwise. -/
def implOf (enum_name : String) (v : Variant) : Option (List String) :=
  match v.fields with
  | Fields.Unnamed tys => some (mkFromImpl enum_name v.ident tys)
  | _ => none

/-- Keys contributed by a variant list to the duplicate scan, in order. -/
def prevKeys (vs : List Variant) : List String :=
  vs.filterMap (fun v =>
    match v.fields with
    | Fields.Unnamed tys => some (fieldsKey tys)
    | _ => none)

/-- Modelled from the spec: the duplicate guard described in the spec
scans variants in declaration order and reports the location of the first
variant whose payload type token string already occurred among the
earlier variants (`prev` is the already-scanned declaration-order
prefix). -/
def firstDupGo (prev : List Variant) : List Variant → Option Span
  | [] => none
  | v :: rest =>
    match v.fields with
    | Fields.Unnamed tys =>
        if fieldsKey tys ∈ prevKeys prev then some v.span
        else firstDupGo (prev ++ [v]) rest
    | Fields.Unit => firstDupGo (prev ++ [v]) rest
    | Fields.Named _ => firstDupGo (prev ++ [v]) rest

/-- Modelled from the spec: span of the first variant whose payload type
was already seen earlier in the scan, or none. -/
def firstDupSpan (variants : List Variant) : Option Span :=
  firstDupGo [] variants

/-- Claim C1, failing input: on `enum E { A(u32), B(u32, u64) }` exactly
one variant has exactly one unnamed payload and no duplicate exists among
such variants, yet the transformation generates two conversion impls, not
one: the filter in `process_variants` accepts any `Fields::Unnamed`
variant, including the two-payload variant `B`. -/
theorem qualifying_count_mismatch_on_multifield :
    (([⟨"A", Fields.Unnamed ["u32"], 0⟩,
       ⟨"B", Fields.Unnamed ["u32", "u64"], 1⟩] : List Variant).filter isSingleUnnamed).length = 1
    ∧ find_duplicate_variant_type
        [⟨"A", Fields.Unnamed ["u32"], 0⟩, ⟨"B", Fields.Unnamed ["u32", "u64"], 1⟩] = none
    ∧ (process_variants
        [⟨"A", Fields.Unnamed ["u32"], 0⟩, ⟨"B", Fields.Unnamed ["u32", "u64"], 1⟩] "E").length
        = 2 := by
  refine ⟨rfl, by decide, rfl⟩

/-- Claim C3, failing input: on `enum T { A(u32, u64), B(u32, u64) }`,
whose two variants both carry the same two unnamed payload types, the
duplicate scan does not skip them: it keys on any `Fields::Unnamed`
variant, so the transformation is rejected with the duplicate
diagnostic at `B`. -/
theorem multifield_variants_participate_in_guard :
    ace_it_impl
      ⟨[], [], "T", [],
        [⟨"A", Fields.Unnamed ["u32", "u64"], 0⟩,
         ⟨"B", Fields.Unnamed ["u32", "u64"], 7⟩]⟩
      = Output.err ⟨7, "Duplicate variant type, can\x27t auto-generate From impls"⟩ := by
  decide

/-- Claim C4, failing input: on `enum T { B(u32, u64) }` generation does
touch the two-payload variant `B`: a conversion impl sourced from `B`
(with the invalid source type list `u32 , u64`) is generated. -/
theorem multifield_variant_generates_impl :
    process_variants [⟨"B", Fields.Unnamed ["u32", "u64"], 0⟩] "T"
      = [mkFromImpl "T" "B" ["u32", "u64"]]
    ∧ (process_variants [⟨"B", Fields.Unnamed ["u32", "u64"], 0⟩] "T").length = 1 := by
  exact ⟨rfl, rfl⟩

/-- Claim C5, failing input: on `enum Only { B(u32, u64) }` no variant has
exactly one unnamed payload, yet the output is not the declaration alone:
one generated impl is appended. -/
theorem passthrough_violated_by_multifield :
    (([⟨"B", Fields.Unnamed ["u32", "u64"], 0⟩] : List Variant).filter isSingleUnnamed).length = 0
    ∧ ace_it_impl ⟨[], [], "Only", [], [⟨"B", Fields.Unnamed ["u32", "u64"], 0⟩]⟩
        ≠ Output.ok (ItemEnum.toTokenStream
            ⟨[], [], "Only", [], [⟨"B", Fields.Unnamed ["u32", "u64"], 0⟩]⟩)
    ∧ ace_it_impl ⟨[], [], "Only", [], [⟨"B", Fields.Unnamed ["u32", "u64"], 0⟩]⟩
        = Output.ok (ItemEnum.toTokenStream
            ⟨[], [], "Only", [], [⟨"B", Fields.Unnamed ["u32", "u64"], 0⟩]⟩
          ++ mkFromImpl "Only" "B" ["u32", "u64"]) := by
  refine ⟨rfl, by decide, by decide⟩

theorem processVariantsGo_eq (n : String) (vs : List Variant) :
    ∀ acc, processVariantsGo n acc vs = acc ++ vs.filterMap (implOf n) := by
  induction vs with
  | nil => intro acc; simp [processVariantsGo]
  | cons v rest ih =>
    intro acc
    obtain ⟨vi, vf, vsp⟩ := v
    cases vf with
    | Unnamed tys => simp [processVariantsGo, implOf, ih]
    | Unit => simp [processVariantsGo, implOf, ih]
    | Named fs => simp [processVariantsGo, implOf, ih]

theorem process_variants_eq_filterMap (vs : List Variant) (n : String) :
    process_variants vs n = vs.filterMap (implOf n) := by
  simpa using processVariantsGo_eq n vs []

/-- Claim C7: order preservation — the generated impl list is exactly the
declaration-order filterMap of the variant list, so the relative order of
the generated conversion impls matches the declaration order of their
source variants. -/
theorem impls_in_declaration_order (vs : List Variant) (n : String) :
    process_variants vs n = vs.filterMap (implOf n) :=
  process_variants_eq_filterMap vs n

theorem findDupGo_some_of_mem_seen (vs : List Variant) :
    ∀ seen : List String,
    (∃ v ∈ vs, ∃ tys, v.fields = Fields.Unnamed tys ∧ fieldsKey tys ∈ seen) →
    ∃ sp, findDupGo seen vs = some sp := by
  induction vs with
  | nil =>
    intro seen h
    obtain ⟨v, hv, _⟩ := h
    exact absurd hv (List.not_mem_nil v)
  | cons u rest ih =>
    intro seen h
    obtain ⟨v, hv, tys, hf, hmem⟩ := h
    rcases List.mem_cons.mp hv with rfl | hv'
    · exact ⟨v.span, by simp [findDupGo, hf, hmem]⟩
    · cases hf' : u.fields with
      | Unnamed utys =>
        by_cases hk : fieldsKey utys ∈ seen
        · exact ⟨u.span, by simp [findDupGo, hf', hk]⟩
        · obtain ⟨sp, hsp⟩ := ih (fieldsKey utys :: seen)
            ⟨v, hv', tys, hf, List.mem_cons_of_mem _ hmem⟩
          exact ⟨sp, by simp [findDupGo, hf', hk, hsp]⟩
      | Unit =>
        obtain ⟨sp, hsp⟩ := ih seen ⟨v, hv', tys, hf, hmem⟩
        exact ⟨sp, by simp [findDupGo, hf', hsp]⟩
      | Named fs =>
        obtain ⟨sp, hsp⟩ := ih seen ⟨v, hv', tys, hf, hmem⟩
        exact ⟨sp, by simp [findDupGo, hf', hsp]⟩

theorem findDupGo_some_of_get_dup (vs : List Variant) :
    ∀ (seen : List String) (i j : Nat) (hij : i < j) (hj : j < vs.length)
      (ti tj : List String),
    (vs.get ⟨i, Nat.lt_trans hij hj⟩).fields = Fields.Unnamed ti →
    (vs.get ⟨j, hj⟩).fields = Fields.Unnamed tj →
    fieldsKey ti = fieldsKey tj →
    ∃ sp, findDupGo seen vs = some sp := by
  induction vs with
  | nil =>
    intro seen i j hij hj
    exact absurd hj (Nat.not_lt_zero j)
  | cons u rest ih =>
    intro seen i j hij hj ti tj hti htj hkey
    cases i with
    | zero =>
      cases j with
      | zero => exact absurd hij (lt_irrefl 0)
      | succ j' =>
        have hu : u.fields = Fields.Unnamed ti := hti
        have hj' : j' < rest.length := Nat.lt_of_succ_lt_succ hj
        have htj' : (rest.get ⟨j', hj'⟩).fields = Fields.Unnamed tj := htj
        by_cases hk : fieldsKey ti ∈ seen
        · exact ⟨u.span, by simp [findDupGo, hu, hk]⟩
        · obtain ⟨sp, hsp⟩ := findDupGo_some_of_mem_seen rest (fieldsKey ti :: seen)
            ⟨rest.get ⟨j', hj'⟩, List.get_mem rest j' hj', tj, htj', by
              rw [← hkey]; exact List.mem_cons_self _ _⟩
          exact ⟨sp, by simp [findDupGo, hu, hk, hsp]⟩
    | succ i' =>
      cases j with
      | zero => exact absurd hij (Nat.not_lt_zero _)
      | succ j' =>
        have hij' : i' < j' := Nat.lt_of_succ_lt_succ hij
        have hj' : j' < rest.length := Nat.lt_of_succ_lt_succ hj
        have hti' : (rest.get ⟨i', Nat.lt_trans hij' hj'⟩).fields = Fields.Unnamed ti := hti
        have htj' : (rest.get ⟨j', hj'⟩).fields = Fields.Unnamed tj := htj
        cases hf' : u.fields with
        | Unnamed utys =>
          by_cases hk : fieldsKey utys ∈ seen
          · exact ⟨u.span, by simp [findDupGo, hf', hk]⟩
          · obtain ⟨sp, hsp⟩ := ih (fieldsKey utys :: seen) i' j' hij' hj' ti tj hti' htj' hkey
            exact ⟨sp, by simp [findDupGo, hf', hk, hsp]⟩
        | Unit =>
          obtain ⟨sp, hsp⟩ := ih seen i' j' hij' hj' ti tj hti' htj' hkey
          exact ⟨sp, by simp [findDupGo, hf', hsp]⟩
        | Named fs =>
          obtain ⟨sp, hsp⟩ := ih seen i' j' hij' hj' ti tj hti' htj' hkey
          exact ⟨sp, by simp [findDupGo, hf', hsp]⟩

/-- Claim C2: two variants (in declaration order, positions i < j) each
with exactly one unnamed payload of the same type token make the whole
transformation return exactly one compile error with the fixed message —
no declaration and no impls are emitted. -/
theorem duplicate_single_payload_rejected (e : ItemEnum) (i j : Nat)
    (hij : i < j) (hj : j < e.variants.length) (t : String)
    (hti : (e.variants.get ⟨i, Nat.lt_trans hij hj⟩).fields = Fields.Unnamed [t])
    (htj : (e.variants.get ⟨j, hj⟩).fields = Fields.Unnamed [t]) :
    ∃ sp, ace_it_impl e
      = Output.err ⟨sp, "Duplicate variant type, can\x27t auto-generate From impls"⟩ := by
  obtain ⟨sp, hsp⟩ := findDupGo_some_of_get_dup e.variants [] i j hij hj [t] [t] hti htj rfl
  exact ⟨sp, by simp [ace_it_impl, find_duplicate_variant_type, hsp, dupMsg]⟩

theorem duplicate_single_payload_rejected_witness :
    ∃ sp, ace_it_impl ⟨[], [], "Test", [],
        [⟨"A", Fields.Unit, 0⟩, ⟨"B", Fields.Unnamed ["u32"], 1⟩,
         ⟨"C", Fields.Unnamed ["u32"], 2⟩]⟩
      = Output.err ⟨sp, "Duplicate variant type, can\x27t auto-generate From impls"⟩ :=
  duplicate_single_payload_rejected
    ⟨[], [], "Test", [],
      [⟨"A", Fields.Unit, 0⟩, ⟨"B", Fields.Unnamed ["u32"], 1⟩,
       ⟨"C", Fields.Unnamed ["u32"], 2⟩]⟩
    1 2 (by decide) (by decide) "u32" rfl rfl

theorem prevKeys_append (prev : List Variant) (v : Variant) :
    prevKeys (prev ++ [v]) = prevKeys prev ++ prevKeys [v] := by
  simp [prevKeys, List.filterMap_append]

theorem findDupGo_eq_firstDupGo (vs : List Variant) :
    ∀ (seen : List String) (prev : List Variant),
    (∀ k, k ∈ seen ↔ k ∈ prevKeys prev) →
    findDupGo seen vs = firstDupGo prev vs := by
  induction vs with
  | nil => intro seen prev _; rfl
  | cons v rest ih =>
    intro seen prev hmem
    cases hf : v.fields with
    | Unnamed tys =>
      by_cases hk : fieldsKey tys ∈ prevKeys prev
      · simp [findDupGo, firstDupGo, hf, hk, (hmem _).mpr hk]
      · have hk' : fieldsKey tys ∉ seen := fun h => hk ((hmem _).mp h)
        simp only [findDupGo, firstDupGo, hf, if_neg hk, if_neg hk']
        apply ih
        intro k
        rw [prevKeys_append]
        simp only [prevKeys, List.filterMap_cons, hf, List.filterMap_nil,
          List.mem_cons, List.mem_append, List.mem_singleton, hmem k]
        tauto
    | Unit =>
      simp only [findDupGo, firstDupGo, hf]
      apply ih
      intro k
      rw [prevKeys_append]
      simp only [prevKeys, List.filterMap_cons, hf, List.filterMap_nil,
        List.mem_append, List.not_mem_nil, or_false]
      exact hmem k
    | Named fs =>
      simp only [findDupGo, firstDupGo, hf]
      apply ih
      intro k
      rw [prevKeys_append]
      simp only [prevKeys, List.filterMap_cons, hf, List.filterMap_nil,
        List.mem_append, List.not_mem_nil, or_false]
      exact hmem k

/-- Claim C6: the duplicate scan is equivalent to the declaration-order
first-duplicate search: it returns the span of the first variant whose
payload type token string already occurred among the earlier variants,
or none when no duplicate exists — so only the first conflicting variant
is ever reported. -/
theorem guard_returns_first_duplicate (vs : List Variant) :
    find_duplicate_variant_type vs = firstDupSpan vs :=
  findDupGo_eq_firstDupGo vs [] [] (fun k => by simp [prevKeys])

/-- Claim C8: when the duplicate scan accepts, the output token stream is
the original declaration rendered verbatim, followed immediately by the
generated conversion impls and nothing else. -/
theorem accepted_output_verbatim (e : ItemEnum)
    (h : find_duplicate_variant_type e.variants = none) :
    ace_it_impl e
      = Output.ok (e.toTokenStream ++ (process_variants e.variants e.ident).flatten) := by
  simp [ace_it_impl, h]

theorem accepted_output_verbatim_witness :
    ace_it_impl ⟨["#", "[", "derive", "(", "Debug", ")", "]"], ["pub"], "Test", [],
        [⟨"A", Fields.Unit, 0⟩, ⟨"B", Fields.Unnamed ["u32"], 1⟩]⟩
      = Output.ok (ItemEnum.toTokenStream
          ⟨["#", "[", "derive", "(", "Debug", ")", "]"], ["pub"], "Test", [],
            [⟨"A", Fields.Unit, 0⟩, ⟨"B", Fields.Unnamed ["u32"], 1⟩]⟩
        ++ (process_variants
            [⟨"A", Fields.Unit, 0⟩, ⟨"B", Fields.Unnamed ["u32"], 1⟩] "Test").flatten) :=
  accepted_output_verbatim
    ⟨["#", "[", "derive", "(", "Debug", ")", "]"], ["pub"], "Test", [],
      [⟨"A", Fields.Unit, 0⟩, ⟨"B", Fields.Unnamed ["u32"], 1⟩]⟩
    (by decide)

/-- Claim C9: the generated impls are unchanged by the enum's generic
parameter tokens, every generated impl header starts `impl From <` with
no generic parameter list after `impl`, and the impl target is the bare
enum identifier followed directly by the impl body brace — the generics
are never repeated in the impl. -/
theorem impl_target_bare_ident (e : ItemEnum) (gs : List String) (ts : List String)
    (hts : ts ∈ process_variants e.variants e.ident) :
    process_variants (ItemEnum.mk e.attrs e.vis e.ident gs e.variants).variants
        (ItemEnum.mk e.attrs e.vis e.ident gs e.variants).ident
      = process_variants e.variants e.ident
    ∧ ts.take 3 = ["impl", "From", "<"]
    ∧ ∃ pre post, ts = pre ++ ["for", e.ident, "\x7b"] ++ post := by
  rw [process_variants_eq_filterMap] at hts
  obtain ⟨v, hv, himpl⟩ := List.mem_filterMap.mp hts
  cases hf : v.fields with
  | Unnamed tys =>
    rw [implOf, hf] at himpl
    have hts' : ts = mkFromImpl e.ident v.ident tys := (Option.some.inj himpl).symm
    subst hts'
    refine ⟨rfl, rfl, ⟨["impl", "From", "<"] ++ sepByComma tys ++ [">"],
      ["fn", "from", "(", "value", ":"] ++ sepByComma tys ++
        [")", "->", "Self", "\x7b", "Self", "::", v.ident, "(", "value", ")", "\x7d", "\x7d"], ?_⟩⟩
    simp [mkFromImpl]
  | Unit => rw [implOf, hf] at himpl; exact absurd himpl (by simp)
  | Named fs => rw [implOf, hf] at himpl; exact absurd himpl (by simp)

theorem impl_target_bare_ident_witness :
    process_variants (ItemEnum.mk [] [] "E" []
        [⟨"B", Fields.Unnamed ["u32"], 0⟩]).variants
      (ItemEnum.mk [] [] "E" [] [⟨"B", Fields.Unnamed ["u32"], 0⟩]).ident
      = process_variants
          (ItemEnum.mk [] [] "E" ["<", "T", ">"] [⟨"B", Fields.Unnamed ["u32"], 0⟩]).variants
          (ItemEnum.mk [] [] "E" ["<", "T", ">"] [⟨"B", Fields.Unnamed ["u32"], 0⟩]).ident
    ∧ (mkFromImpl "E" "B" ["u32"]).take 3 = ["impl", "From", "<"]
    ∧ ∃ pre post, mkFromImpl "E" "B" ["u32"]
        = pre ++ ["for", (ItemEnum.mk [] [] "E" ["<", "T", ">"]
            [⟨"B", Fields.Unnamed ["u32"], 0⟩]).ident, "\x7b"] ++ post :=
  impl_target_bare_ident
    (ItemEnum.mk [] [] "E" ["<", "T", ">"] [⟨"B", Fields.Unnamed ["u32"], 0⟩])
    [] (mkFromImpl "E" "B" ["u32"]) (by decide)

/-- Claim C10: an empty unnamed field list participates in the
transformation: any two variants with empty unnamed field lists collide
under the empty type key and the enum is rejected with the duplicate
diagnostic, and a variant with an empty unnamed field list always yields
a generated impl whose source type list is empty. -/
theorem empty_unnamed_payload_behavior :
    (∀ (e : ItemEnum) (i j : Nat) (hij : i < j) (hj : j < e.variants.length),
      (e.variants.get ⟨i, Nat.lt_trans hij hj⟩).fields = Fields.Unnamed [] →
      (e.variants.get ⟨j, hj⟩).fields = Fields.Unnamed [] →
      ∃ sp, ace_it_impl e
        = Output.err ⟨sp, "Duplicate variant type, can\x27t auto-generate From impls"⟩)
    ∧ (∀ (vs : List Variant) (n : String) (v : Variant), v ∈ vs →
        v.fields = Fields.Unnamed [] →
        mkFromImpl n v.ident [] ∈ process_variants vs n) := by
  constructor
  · intro e i j hij hj hti htj
    obtain ⟨sp, hsp⟩ := findDupGo_some_of_get_dup e.variants [] i j hij hj [] [] hti htj rfl
    exact ⟨sp, by simp [ace_it_impl, find_duplicate_variant_type, hsp, dupMsg]⟩
  · intro vs n v hv hf
    rw [process_variants_eq_filterMap]
    exact List.mem_filterMap.mpr ⟨v, hv, by simp [implOf, hf]⟩

theorem empty_unnamed_payload_behavior_witness :
    (∃ sp, ace_it_impl ⟨[], [], "E", [],
        [⟨"V1", Fields.Unnamed [], 0⟩, ⟨"V2", Fields.Unnamed [], 1⟩]⟩
      = Output.err ⟨sp, "Duplicate variant type, can\x27t auto-generate From impls"⟩)
    ∧ mkFromImpl "E" "W" [] ∈ process_variants [⟨"W", Fields.Unnamed [], 5⟩] "E" :=
  ⟨empty_unnamed_payload_behavior.1
      ⟨[], [], "E", [], [⟨"V1", Fields.Unnamed [], 0⟩, ⟨"V2", Fields.Unnamed [], 1⟩]⟩
      0 1 (by decide) (by decide) rfl rfl,
   empty_unnamed_payload_behavior.2 [⟨"W", Fields.Unnamed [], 5⟩] "E"
      ⟨"W", Fields.Unnamed [], 5⟩ (List.mem_singleton.mpr rfl) rfl⟩

end AceIt
